import Mathlib

/-!
Shallow embedding of the howitzer-simulator ballistic core
(`position.cpp`, `velocity.cpp`, `projectile.cpp`, `angle.h`, `howitzer.h`,
`physics.h`).  Doubles are modelled as real numbers; each definition is a
direct translation of the corresponding C++ function.
-/

open scoped Classical

/-- A 2D position in meters (class Position, `position.h`): default constructor
is the origin. -/
structure Position where
  x : ℝ
  y : ℝ

/-- A 2D velocity in meters/second (class Velocity, `velocity.h`): default
constructor is (0,0). -/
structure Velocity where
  dx : ℝ
  dy : ℝ

/-- A 2D acceleration in meters/second² (class Acceleration, `acceleration.h`). -/
structure Acceleration where
  ddx : ℝ
  ddy : ℝ

/-- Cpp `Velocity::getSpeed`: speed = √(dx² + dy²). -/
noncomputable def Velocity.getSpeed (v : Velocity) : ℝ :=
  Real.sqrt (v.dx * v.dx + v.dy * v.dy)

/-- Cpp `areaFromRadius` (physics.h): area = π·radius². -/
noncomputable def areaFromRadius (radius : ℝ) : ℝ :=
  Real.pi * (radius * radius)

/-- Cpp `forceFromDrag` (physics.h): force = ½·density·drag·area·velocity². -/
noncomputable def forceFromDrag (density drag radius velocity : ℝ) : ℝ :=
  0.5 * density * drag * areaFromRadius radius * (velocity * velocity)

/-- Cpp `accelerationFromForce` (physics.h): a = F/m. -/
noncomputable def accelerationFromForce (force mass : ℝ) : ℝ :=
  force / mass

/-- Cpp `linearInterpolation` two-point overload (physics.h):
r = r0 + (r1 - r0)·(d - d0)/(d1 - d0). -/
noncomputable def linearInterpolationPts (d0 r0 d1 r1 d : ℝ) : ℝ :=
  r0 + (r1 - r0) * (d - d0) / (d1 - d0)

/-- struct Mapping (physics.h): a (domain, range) pair of a lookup table. -/
structure Mapping where
  domain : ℝ
  range : ℝ

/-- Domain of the i-th knot of a table (C++ mapping[i].domain). -/
def tableDomain (mapping : List Mapping) (i : ℕ) : ℝ :=
  (mapping.getD i ⟨0, 0⟩).domain

/-- Range of the i-th knot of a table (C++ mapping[i].range). -/
def tableRange (mapping : List Mapping) (i : ℕ) : ℝ :=
  (mapping.getD i ⟨0, 0⟩).range

/-- The binary-search loop of the table overload of `linearInterpolation`
(position.cpp lines 388-398): while (left < right - 1) pick
mid = left + (right-left)/2 and shrink the bracket. -/
noncomputable def bsearchLoop (dom : ℕ → ℝ) (d : ℝ) (left right : ℕ) : ℕ × ℕ :=
  if h : left + 1 < right then
    let mid := left + (right - left) / 2
    if dom mid ≤ d then bsearchLoop dom d mid right
    else bsearchLoop dom d left mid
  else (left, right)
termination_by right - left
decreasing_by
· have h2 : 1 ≤ (right - left) / 2 := (Nat.one_le_div_iff (by omega)).mpr (by omega)
  have h3 : (right - left) / 2 ≤ right - left := Nat.div_le_self _ _
  omega
· have h2 : (right - left) / 2 < right - left := Nat.div_lt_self (by omega) (by omega)
  omega

/-- Cpp `linearInterpolation(const Mapping mapping[], int numMapping, double domain)`
(position.cpp lines 376-406): clamp below the first knot and above the last
knot, otherwise binary-search the bracketing interval and interpolate. -/
noncomputable def linearInterpolation (mapping : List Mapping) (d : ℝ) : ℝ :=
  let numMapping := mapping.length
  if d ≤ tableDomain mapping 0 then tableRange mapping 0
  else if tableDomain mapping (numMapping - 1) ≤ d then
    tableRange mapping (numMapping - 1)
  else
    let lr := bsearchLoop (tableDomain mapping) d 0 (numMapping - 1)
    linearInterpolationPts (tableDomain mapping lr.1) (tableRange mapping lr.1)
      (tableDomain mapping lr.2) (tableRange mapping lr.2) d

/-- The gravity lookup table of `gravityFromAltitude` (position.cpp). -/
noncomputable def gravityMapping : List Mapping :=
  [⟨0.0, 9.807⟩, ⟨1000.0, 9.804⟩, ⟨2000.0, 9.801⟩, ⟨3000.0, 9.797⟩,
   ⟨4000.0, 9.794⟩, ⟨5000.0, 9.791⟩, ⟨6000.0, 9.788⟩, ⟨7000.0, 9.785⟩,
   ⟨8000.0, 9.782⟩, ⟨9000.0, 9.779⟩, ⟨10000.0, 9.776⟩, ⟨15000.0, 9.761⟩,
   ⟨20000.0, 9.745⟩, ⟨25000.0, 9.730⟩, ⟨30000.0, 9.715⟩, ⟨40000.0, 9.684⟩,
   ⟨50000.0, 9.654⟩, ⟨60000.0, 9.624⟩, ⟨70000.0, 9.594⟩, ⟨80000.0, 9.564⟩]

/-- Cpp `gravityFromAltitude` (position.cpp lines 413-442). -/
noncomputable def gravityFromAltitude (altitude : ℝ) : ℝ :=
  linearInterpolation gravityMapping altitude

/-- The air-density lookup table of `densityFromAltitude` (position.cpp). -/
noncomputable def densityMapping : List Mapping :=
  [⟨0.0, 1.225⟩, ⟨1000.0, 1.112⟩, ⟨2000.0, 1.007⟩, ⟨3000.0, 0.9093⟩,
   ⟨4000.0, 0.8194⟩, ⟨5000.0, 0.7364⟩, ⟨6000.0, 0.6601⟩, ⟨7000.0, 0.5900⟩,
   ⟨8000.0, 0.5258⟩, ⟨9000.0, 0.4671⟩, ⟨10000.0, 0.4135⟩, ⟨15000.0, 0.1948⟩,
   ⟨20000.0, 0.08891⟩, ⟨25000.0, 0.04008⟩, ⟨30000.0, 0.01841⟩,
   ⟨40000.0, 0.003996⟩, ⟨50000.0, 0.001027⟩, ⟨60000.0, 0.0003097⟩,
   ⟨70000.0, 0.0000828⟩, ⟨80000.0, 0.0000185⟩]

/-- Cpp `densityFromAltitude` (position.cpp lines 449-478). -/
noncomputable def densityFromAltitude (altitude : ℝ) : ℝ :=
  linearInterpolation densityMapping altitude

/-- The speed-of-sound lookup table of `speedSoundFromAltitude` (position.cpp). -/
noncomputable def speedSoundMapping : List Mapping :=
  [⟨0.0, 340.0⟩, ⟨1000.0, 336.0⟩, ⟨2000.0, 332.0⟩, ⟨3000.0, 328.0⟩,
   ⟨4000.0, 324.0⟩, ⟨5000.0, 320.0⟩, ⟨6000.0, 316.0⟩, ⟨7000.0, 312.0⟩,
   ⟨8000.0, 308.0⟩, ⟨9000.0, 303.0⟩, ⟨10000.0, 299.0⟩, ⟨15000.0, 295.0⟩,
   ⟨20000.0, 295.0⟩, ⟨25000.0, 295.0⟩, ⟨30000.0, 305.0⟩, ⟨40000.0, 324.0⟩,
   ⟨50000.0, 337.0⟩, ⟨60000.0, 319.0⟩, ⟨70000.0, 289.0⟩, ⟨80000.0, 269.0⟩]

/-- Cpp `speedSoundFromAltitude` (position.cpp lines 485-514). -/
noncomputable def speedSoundFromAltitude (altitude : ℝ) : ℝ :=
  linearInterpolation speedSoundMapping altitude

/-- The M795 drag-coefficient lookup table of `dragFromMach` (position.cpp). -/
noncomputable def dragMapping : List Mapping :=
  [⟨0.0, 0.0⟩, ⟨0.1, 0.0543⟩, ⟨0.3, 0.1629⟩, ⟨0.5, 0.1659⟩, ⟨0.7, 0.2031⟩,
   ⟨0.89, 0.2597⟩, ⟨0.92, 0.3010⟩, ⟨0.96, 0.3287⟩, ⟨0.98, 0.4002⟩,
   ⟨1.00, 0.4258⟩, ⟨1.02, 0.4335⟩, ⟨1.06, 0.4483⟩, ⟨1.24, 0.4064⟩,
   ⟨1.53, 0.3663⟩, ⟨1.99, 0.2897⟩, ⟨2.87, 0.2297⟩, ⟨2.89, 0.2306⟩,
   ⟨5.00, 0.2656⟩]

/-- Cpp `dragFromMach` (position.cpp lines 521-548). -/
noncomputable def dragFromMach (speedMach : ℝ) : ℝ :=
  linearInterpolation dragMapping speedMach

/-- A lookup table whose domains are strictly increasing (the precondition of
the interpolation contract). -/
def StrictTable (mapping : List Mapping) : Prop :=
  ∀ i j, i < j → j < mapping.length →
    tableDomain mapping i < tableDomain mapping j

/-- C library `fmod` on real numbers: x - y·trunc(x/y) with truncation toward
zero, as used by `Angle::normalize`. -/
noncomputable def fmod (x y : ℝ) : ℝ :=
  x - y * (if 0 ≤ x / y then (⌊x / y⌋ : ℝ) else (⌈x / y⌉ : ℝ))

/-- class Angle (angle.h): a direction stored in radians. -/
structure Angle where
  radians : ℝ

/-- Cpp `Angle::normalize` (position.cpp lines 211-218): fmod into (-2π, 2π),
then shift negatives up by 2π. -/
noncomputable def Angle.normalize (radians : ℝ) : ℝ :=
  let r := fmod radians (2.0 * Real.pi)
  if r < 0 then r + 2.0 * Real.pi else r

/-- Cpp `Angle::convertToRadians` (angle.h): degrees → normalized radians. -/
noncomputable def Angle.convertToRadians (degrees : ℝ) : ℝ :=
  Angle.normalize (degrees * (Real.pi / 180.0))

/-- Cpp `Angle::convertToDegrees` (angle.h): radians → degrees, normalizing. -/
noncomputable def Angle.convertToDegrees (radian : ℝ) : ℝ :=
  Angle.normalize radian * (180.0 / Real.pi)

/-- Cpp `std::atan2(y, x)`: the angle of the point (x, y), in (-π, π]. -/
noncomputable def atan2 (y x : ℝ) : ℝ :=
  if 0 < x then Real.arctan (y / x)
  else if x < 0 ∧ 0 ≤ y then Real.arctan (y / x) + Real.pi
  else if x < 0 ∧ y < 0 then Real.arctan (y / x) - Real.pi
  else if x = 0 ∧ 0 < y then Real.pi / 2
  else if x = 0 ∧ y < 0 then -(Real.pi / 2)
  else 0

/-- Cpp `Angle` degree constructor and `operator=(double)`: stores
convertToRadians(degrees). -/
noncomputable def Angle.ofDegrees (degrees : ℝ) : Angle :=
  ⟨Angle.convertToRadians degrees⟩

/-- Cpp `Angle::setDegrees`. -/
noncomputable def Angle.setDegrees (degrees : ℝ) : Angle :=
  ⟨Angle.convertToRadians degrees⟩

/-- Cpp `Angle::setRadians`: stores normalize(radians). -/
noncomputable def Angle.setRadians (radians : ℝ) : Angle :=
  ⟨Angle.normalize radians⟩

/-- Cpp `Angle::setDxDy`: stores normalize(atan2(dx, dy)). -/
noncomputable def Angle.setDxDy (dx dy : ℝ) : Angle :=
  ⟨Angle.normalize (atan2 dx dy)⟩

/-- Cpp `Angle::add(double delta)`: radians = normalize(radians + delta). -/
noncomputable def Angle.add (a : Angle) (delta : ℝ) : Angle :=
  ⟨Angle.normalize (a.radians + delta)⟩

/-- Cpp `Angle::reverse`: radians = normalize(radians + π). -/
noncomputable def Angle.reverse (a : Angle) : Angle :=
  ⟨Angle.normalize (a.radians + Real.pi)⟩

/-- Cpp `Angle::operator+(double degrees)` (position.cpp). -/
noncomputable def Angle.addDegrees (a : Angle) (degrees : ℝ) : Angle :=
  ⟨Angle.normalize (a.radians + Angle.convertToRadians degrees)⟩

/-- Cpp `Angle::operator-(double degrees)` (position.cpp); `operator-=` computes
the same stored value. -/
noncomputable def Angle.subDegrees (a : Angle) (degrees : ℝ) : Angle :=
  ⟨Angle.normalize (a.radians - Angle.convertToRadians degrees)⟩

/-- Cpp `Angle::operator+(const Angle&)` (position.cpp); `operator+=` computes
the same stored value. -/
noncomputable def Angle.addAngle (a rhs : Angle) : Angle :=
  ⟨Angle.normalize (a.radians + rhs.radians)⟩

/-- Cpp `Angle::operator-(const Angle&)` (position.cpp). -/
noncomputable def Angle.subAngle (a rhs : Angle) : Angle :=
  ⟨Angle.normalize (a.radians - rhs.radians)⟩

/-- Cpp `Angle::getDegrees` (angle.h). -/
noncomputable def Angle.getDegrees (a : Angle) : ℝ :=
  Angle.convertToDegrees a.radians

/-- Cpp `Angle::isRight` (angle.h): radians ∈ (0, π). -/
def Angle.isRight (a : Angle) : Prop :=
  0 < a.radians ∧ a.radians < Real.pi

noncomputable instance (a : Angle) : Decidable a.isRight := by
  unfold Angle.isRight; infer_instance

/-- Cpp `Velocity::set(const Angle&, double)` (velocity.cpp lines 75-80):
dx = magnitude·sin θ, dy = magnitude·cos θ. -/
noncomputable def Velocity.set (angle : Angle) (magnitude : ℝ) : Velocity :=
  ⟨magnitude * Real.sin angle.radians, magnitude * Real.cos angle.radians⟩

/-- Cpp `Velocity::add(const Acceleration&, double)` (velocity.cpp lines 35-40):
v = v₀ + a·t. -/
noncomputable def Velocity.add (v : Velocity) (acceleration : Acceleration)
    (time : ℝ) : Velocity :=
  ⟨v.dx + acceleration.ddx * time, v.dy + acceleration.ddy * time⟩

/-- Cpp `Position::add(const Acceleration&, const Velocity&, double)`
(position.cpp lines 82-88): s = s₀ + v·t + ½·a·t². -/
noncomputable def Position.add (p : Position) (a : Acceleration) (v : Velocity)
    (t : ℝ) : Position :=
  ⟨p.x + v.dx * t + 0.5 * a.ddx * t * t,
   p.y + v.dy * t + 0.5 * a.ddy * t * t⟩

/-- Cpp `Acceleration::operator+` (acceleration.cpp): componentwise sum. -/
noncomputable def Acceleration.plus (a rhs : Acceleration) : Acceleration :=
  ⟨a.ddx + rhs.ddx, a.ddy + rhs.ddy⟩

/-- struct PositionVelocityTime (projectile.h): one trajectory sample; the
default constructor zeroes all members. -/
structure PositionVelocityTime where
  pos : Position
  v : Velocity
  t : ℝ

instance : Inhabited PositionVelocityTime :=
  ⟨⟨⟨0, 0⟩, ⟨0, 0⟩, 0⟩⟩

/-- DEFAULT_PROJECTILE_WEIGHT (projectile.h): 46.7 kg. -/
noncomputable def DEFAULT_PROJECTILE_WEIGHT : ℝ := 46.7

/-- DEFAULT_PROJECTILE_RADIUS (projectile.h): 0.077545 m. -/
noncomputable def DEFAULT_PROJECTILE_RADIUS : ℝ := 0.077545

/-- class Projectile (projectile.h): mass, radius, active flag and the
flight path. -/
structure Projectile where
  mass : ℝ
  radius : ℝ
  isActive : Bool
  flightPath : List PositionVelocityTime

/-- Cpp `Projectile::reset` (projectile.cpp lines 23-29). -/
noncomputable def Projectile.reset (p : Projectile) : Projectile :=
  { p with
    mass := DEFAULT_PROJECTILE_WEIGHT
    radius := DEFAULT_PROJECTILE_RADIUS
    isActive := false
    flightPath := [] }

/-- Cpp `Projectile::fire` (projectile.cpp lines 35-50): clear the flight path,
append the single initial sample with velocity from angle + magnitude, and
activate. -/
noncomputable def Projectile.fire (p : Projectile) (pos : Position)
    (angle : Angle) (muzzleVelocity time : ℝ) : Projectile :=
  { p with
    flightPath := [⟨pos, Velocity.set angle muzzleVelocity, time⟩]
    isActive := true }

/-- Cpp `Projectile::calculateDragAcceleration` (projectile.cpp lines 99-128). -/
noncomputable def Projectile.calculateDragAcceleration (p : Projectile)
    (pvt : PositionVelocityTime) : Acceleration :=
  let altitude := max 0 pvt.pos.y
  let speed := pvt.v.getSpeed
  if speed = 0 then ⟨0, 0⟩
  else
    let density := densityFromAltitude altitude
    let speedSound := speedSoundFromAltitude altitude
    let machNumber := speed / speedSound
    let dragCoeff := dragFromMach machNumber
    let dragForce := forceFromDrag density dragCoeff p.radius speed
    let dragAccelMagnitude := accelerationFromForce dragForce p.mass
    ⟨-dragAccelMagnitude * (pvt.v.dx / speed),
     -dragAccelMagnitude * (pvt.v.dy / speed)⟩

/-- Cpp `Projectile::calculateTotalAcceleration` (projectile.cpp lines 134-147):
gravity straight down plus drag. -/
noncomputable def Projectile.calculateTotalAcceleration (p : Projectile)
    (pvt : PositionVelocityTime) : Acceleration :=
  let altitude := max 0 pvt.pos.y
  let gravity := gravityFromAltitude altitude
  let gravityAccel : Acceleration := ⟨0, -gravity⟩
  let dragAccel := p.calculateDragAcceleration pvt
  gravityAccel.plus dragAccel

/-- Cpp `Projectile::advance` (projectile.cpp lines 56-93). -/
noncomputable def Projectile.advance (p : Projectile) (simulationTime : ℝ) :
    Projectile :=
  if ¬p.isActive ∨ p.flightPath = [] then p
  else
    let currentPvt := p.flightPath.getLastD default
    let deltaTime := simulationTime - currentPvt.t
    if deltaTime ≤ 0 then p
    else
      let totalAcceleration := p.calculateTotalAcceleration currentPvt
      let newPos := currentPvt.pos.add totalAcceleration currentPvt.v deltaTime
      let newV := currentPvt.v.add totalAcceleration deltaTime
      let newPvt : PositionVelocityTime := ⟨newPos, newV, simulationTime⟩
      { p with
        flightPath := p.flightPath ++ [newPvt]
        isActive := if newPvt.pos.y < 0 then false else p.isActive }

/-- Cpp `Projectile::getPosition` (projectile.cpp lines 175-182): last sample's
position, or the origin when the flight path is empty. -/
noncomputable def Projectile.getPosition (p : Projectile) : Position :=
  if p.flightPath = [] then ⟨0, 0⟩
  else (p.flightPath.getLastD default).pos

/-- Cpp `Projectile::getCurrentAltitude` (projectile.cpp lines 257-264):
max(0, last sample's y), or 0 when the flight path is empty. -/
noncomputable def Projectile.getCurrentAltitude (p : Projectile) : ℝ :=
  if p.flightPath = [] then 0
  else max 0 (p.flightPath.getLastD default).pos.y

/-- Cpp `Projectile::setMass` (projectile.h line 98): keep the old mass unless
the new one is strictly positive. -/
noncomputable def Projectile.setMass (p : Projectile) (newMass : ℝ) :
    Projectile :=
  { p with mass := if 0 < newMass then newMass else p.mass }

/-- Cpp `Projectile::setRadius` (projectile.h line 99). -/
noncomputable def Projectile.setRadius (p : Projectile) (newRadius : ℝ) :
    Projectile :=
  { p with radius := if 0 < newRadius then newRadius else p.radius }

/-- MIN_ELEVATION_ANGLE (howitzer.h): 0 degrees. -/
noncomputable def MIN_ELEVATION_ANGLE : ℝ := 0.0

/-- MAX_ELEVATION_ANGLE (howitzer.h): 85 degrees. -/
noncomputable def MAX_ELEVATION_ANGLE : ℝ := 85.0

/-- class Howitzer (howitzer.h). -/
structure Howitzer where
  position : Position
  muzzleVelocity : ℝ
  elevation : Angle
  lastFireTime : ℝ
  roundsFired : ℤ

/-- Cpp `Howitzer::rotate` (howitzer.h lines 93-114): add the delta when the new
elevation stays inside [MIN, MAX] degrees, otherwise clamp to the violated
bound. -/
noncomputable def Howitzer.rotate (h : Howitzer) (radians : ℝ) : Howitzer :=
  let deltaeDegrees := radians * (180.0 / Real.pi)
  let currentDegrees := h.elevation.getDegrees
  let newDegrees := currentDegrees + deltaeDegrees
  if MIN_ELEVATION_ANGLE ≤ newDegrees ∧ newDegrees ≤ MAX_ELEVATION_ANGLE then
    { h with elevation := h.elevation.add radians }
  else if newDegrees < MIN_ELEVATION_ANGLE then
    { h with elevation := Angle.setDegrees MIN_ELEVATION_ANGLE }
  else if MAX_ELEVATION_ANGLE < newDegrees then
    { h with elevation := Angle.setDegrees MAX_ELEVATION_ANGLE }
  else h

/-- Cpp `Howitzer::raise` (howitzer.h lines 117-149): like rotate but the sign of
the delta flips when the elevation points right. -/
noncomputable def Howitzer.raise (h : Howitzer) (radians : ℝ) : Howitzer :=
  let deltaeDegrees := radians * (180.0 / Real.pi)
  let currentDegrees := h.elevation.getDegrees
  let actualDelta :=
    if h.elevation.isRight then -deltaeDegrees else deltaeDegrees
  let newDegrees := currentDegrees + actualDelta
  if MIN_ELEVATION_ANGLE ≤ newDegrees ∧ newDegrees ≤ MAX_ELEVATION_ANGLE then
    { h with elevation :=
        if h.elevation.isRight then h.elevation.add (-radians)
        else h.elevation.add radians }
  else if newDegrees < MIN_ELEVATION_ANGLE then
    { h with elevation := Angle.setDegrees MIN_ELEVATION_ANGLE }
  else if MAX_ELEVATION_ANGLE < newDegrees then
    { h with elevation := Angle.setDegrees MAX_ELEVATION_ANGLE }
  else h

/-- The binary-search loop, started on a bracket [left, right] with
dom left ≤ d < dom right, returns an adjacent bracketing pair. -/
theorem bsearchLoop_spec (dom : ℕ → ℝ) (d : ℝ) :
    ∀ (n left right : ℕ), right - left ≤ n → left < right → dom left ≤ d →
      d < dom right →
      ∃ l, bsearchLoop dom d left right = (l, l + 1) ∧ left ≤ l ∧
        l + 1 ≤ right ∧ dom l ≤ d ∧ d < dom (l + 1) := by
  intro n
  induction n with
  | zero => intro left right hfuel hlr _ _; omega
  | succ n ih =>
    intro left right hfuel hlr h0 h1
    by_cases hc : left + 1 < right
    · rw [bsearchLoop]
      rw [dif_pos hc]
      have hd2 : 1 ≤ (right - left) / 2 :=
        (Nat.one_le_div_iff (by omega)).mpr (by omega)
      have hd3 : (right - left) / 2 < right - left :=
        Nat.div_lt_self (by omega) (by omega)
      by_cases hm : dom (left + (right - left) / 2) ≤ d
      · simp only [if_pos hm]
        obtain ⟨l, heq, hl1, hl2, hl3, hl4⟩ :=
          ih (left + (right - left) / 2) right (by omega) (by omega) hm h1
        exact ⟨l, heq, by omega, hl2, hl3, hl4⟩
      · simp only [if_neg hm]
        push_neg at hm
        obtain ⟨l, heq, hl1, hl2, hl3, hl4⟩ :=
          ih left (left + (right - left) / 2) (by omega) (by omega) h0 hm
        exact ⟨l, heq, hl1, by omega, hl3, hl4⟩
    · rw [bsearchLoop]
      rw [dif_neg hc]
      have hre : right = left + 1 := by omega
      subst hre
      exact ⟨left, rfl, le_refl _, le_refl _, h0, h1⟩

/-- Strictly increasing tables are monotone in the non-strict sense. -/
theorem tableDomain_mono_le (mapping : List Mapping) (hs : StrictTable mapping)
    {i j : ℕ} (hij : i ≤ j) (hj : j < mapping.length) :
    tableDomain mapping i ≤ tableDomain mapping j := by
  rcases Nat.lt_or_ge i j with h | h
  · exact le_of_lt (hs i j h hj)
  · have : i = j := by omega
    subst this; exact le_refl _

/-- Clamp below the first knot: the interpolation returns the first range. -/
theorem linearInterpolation_le_first (mapping : List Mapping) (d : ℝ)
    (h : d ≤ tableDomain mapping 0) :
    linearInterpolation mapping d = tableRange mapping 0 := by
  unfold linearInterpolation
  simp only [if_pos h]

/-- Clamp above the last knot: the interpolation returns the last range. -/
theorem linearInterpolation_ge_last (mapping : List Mapping) (d : ℝ)
    (hs : StrictTable mapping)
    (h : tableDomain mapping (mapping.length - 1) ≤ d) :
    linearInterpolation mapping d = tableRange mapping (mapping.length - 1) := by
  unfold linearInterpolation
  by_cases hA : d ≤ tableDomain mapping 0
  · simp only [if_pos hA]
    rcases Nat.eq_zero_or_pos (mapping.length - 1) with hz | hp
    · rw [hz]
    · exfalso
      have h01 : tableDomain mapping 0 < tableDomain mapping (mapping.length - 1) :=
        hs 0 (mapping.length - 1) hp (by omega)
      linarith
  · simp only [if_neg hA, if_pos h]

/-- In the interior, the interpolation returns the two-point interpolation of
the unique adjacent bracketing pair. -/
theorem linearInterpolation_bracket (mapping : List Mapping) (d : ℝ) (i : ℕ)
    (hs : StrictTable mapping) (hi : i + 1 < mapping.length)
    (h0 : tableDomain mapping i ≤ d) (h1 : d < tableDomain mapping (i + 1)) :
    linearInterpolation mapping d =
      linearInterpolationPts (tableDomain mapping i) (tableRange mapping i)
        (tableDomain mapping (i + 1)) (tableRange mapping (i + 1)) d := by
  unfold linearInterpolation
  by_cases hA : d ≤ tableDomain mapping 0
  · have hi0 : i = 0 := by
      by_contra hne
      have : tableDomain mapping 0 < tableDomain mapping i :=
        hs 0 i (by omega) (by omega)
      linarith
    subst hi0
    have hd0 : d = tableDomain mapping 0 := le_antisymm hA h0
    simp only [if_pos hA]
    rw [linearInterpolationPts, hd0]
    rw [sub_self, mul_zero, zero_div, add_zero]
  · have hB : ¬ tableDomain mapping (mapping.length - 1) ≤ d := by
      intro hB
      have : tableDomain mapping (i + 1) ≤ tableDomain mapping (mapping.length - 1) :=
        tableDomain_mono_le mapping hs (by omega) (by omega)
      linarith
    simp only [if_neg hA, if_neg hB]
    push_neg at hA hB
    have hlen2 : 2 ≤ mapping.length := by omega
    have hlast : d < tableDomain mapping (mapping.length - 1) := hB
    obtain ⟨l, heq, hl1, hl2, hl3, hl4⟩ :=
      bsearchLoop_spec (tableDomain mapping) d (mapping.length - 1) 0
        (mapping.length - 1) (by omega) (by omega) (le_of_lt hA) hlast
    have hli : l = i := by
      by_contra hne
      rcases Nat.lt_or_ge l i with h | h
      · have : tableDomain mapping (l + 1) ≤ tableDomain mapping i :=
          tableDomain_mono_le mapping hs (by omega) (by omega)
        linarith
      · have hil : i < l := by omega
        have : tableDomain mapping (i + 1) ≤ tableDomain mapping l :=
          tableDomain_mono_le mapping hs (by omega) (by omega)
        linarith
    rw [heq, hli]

/-- A table whose mapped domains form a strictly increasing chain satisfies
StrictTable. -/
theorem strictTable_of_chain (mapping : List Mapping)
    (h : List.Chain' (· < ·) (mapping.map Mapping.domain)) :
    StrictTable mapping := by
  intro i j hij hj
  have hp : (mapping.map Mapping.domain).Pairwise (· < ·) :=
    List.chain'_iff_pairwise.mp h
  have hi : i < mapping.length := lt_trans hij hj
  have hgd : ∀ k (hk : k < mapping.length),
      tableDomain mapping k = (mapping.map Mapping.domain).get
        ⟨k, by simpa using hk⟩ := by
    intro k hk
    simp only [tableDomain, List.getD_eq_getElem?_getD, List.getElem?_eq_getElem hk]
    simp [List.get_eq_getElem]
  rw [hgd i hi, hgd j hj]
  exact List.pairwise_iff_get.mp hp _ _ (by simpa using hij)

/-- An Angle whose stored radians lie in the normalized range [0, 2π). -/
def angleInRange (a : Angle) : Prop :=
  0 ≤ a.radians ∧ a.radians < 2.0 * Real.pi

/-- Cpp `Angle::normalize` always lands in [0, 2π). -/
theorem normalize_mem (θ : ℝ) :
    0 ≤ Angle.normalize θ ∧ Angle.normalize θ < 2.0 * Real.pi := by
  have hy : (0 : ℝ) < 2.0 * Real.pi := by positivity
  have hyne : (2.0 * Real.pi : ℝ) ≠ 0 := ne_of_gt hy
  have hθ : θ / (2.0 * Real.pi) * (2.0 * Real.pi) = θ := div_mul_cancel₀ θ hyne
  simp only [Angle.normalize, fmod]
  set q := θ / (2.0 * Real.pi) with hq
  by_cases h : 0 ≤ q
  · rw [if_pos h]
    have hfl : (⌊q⌋ : ℝ) ≤ q := Int.floor_le q
    have hfu : q < (⌊q⌋ : ℝ) + 1 := Int.lt_floor_add_one q
    have h0r : 0 ≤ θ - 2.0 * Real.pi * (⌊q⌋ : ℝ) := by nlinarith
    have h1r : θ - 2.0 * Real.pi * (⌊q⌋ : ℝ) < 2.0 * Real.pi := by nlinarith
    rw [if_neg (not_lt.mpr h0r)]
    exact ⟨h0r, h1r⟩
  · rw [if_neg h]
    push_neg at h
    have hcl : q ≤ (⌈q⌉ : ℝ) := Int.le_ceil q
    have hcu : (⌈q⌉ : ℝ) < q + 1 := Int.ceil_lt_add_one q
    have hrle : θ - 2.0 * Real.pi * (⌈q⌉ : ℝ) ≤ 0 := by nlinarith
    have hrgt : -(2.0 * Real.pi) < θ - 2.0 * Real.pi * (⌈q⌉ : ℝ) := by nlinarith
    by_cases hr : θ - 2.0 * Real.pi * (⌈q⌉ : ℝ) < 0
    · rw [if_pos hr]
      constructor <;> linarith
    · rw [if_neg hr]
      push_neg at hr
      constructor <;> linarith

/-- Cpp `Angle::normalize` is the identity on [0, 2π). -/
theorem normalize_eq_self (θ : ℝ) (h0 : 0 ≤ θ) (h1 : θ < 2.0 * Real.pi) :
    Angle.normalize θ = θ := by
  have hy : (0 : ℝ) < 2.0 * Real.pi := by positivity
  simp only [Angle.normalize, fmod]
  have hq0 : 0 ≤ θ / (2.0 * Real.pi) := div_nonneg h0 (le_of_lt hy)
  have hq1 : θ / (2.0 * Real.pi) < 1 := (div_lt_one hy).mpr h1
  have hfl : ⌊θ / (2.0 * Real.pi)⌋ = 0 :=
    Int.floor_eq_zero_iff.mpr ⟨hq0, hq1⟩
  rw [if_pos hq0, hfl]
  push_cast
  rw [mul_zero, sub_zero]
  rw [if_neg (not_lt.mpr h0)]

/-- The sample `Projectile::advance` computes and appends when none of its
guards fire (the body of projectile.cpp lines 70-86, named for reuse). -/
noncomputable def advanceSample (p : Projectile) (simulationTime : ℝ) :
    PositionVelocityTime :=
  let currentPvt := p.flightPath.getLastD default
  let deltaTime := simulationTime - currentPvt.t
  let totalAcceleration := p.calculateTotalAcceleration currentPvt
  ⟨currentPvt.pos.add totalAcceleration currentPvt.v deltaTime,
   currentPvt.v.add totalAcceleration deltaTime, simulationTime⟩

/-- Cpp `advance` is the identity when the Idle guard fires. -/
theorem advance_noop_idle (p : Projectile) (t : ℝ)
    (h : ¬p.isActive ∨ p.flightPath = []) : p.advance t = p := by
  unfold Projectile.advance
  rw [if_pos h]

/-- Cpp `advance` is the identity when the time step is not strictly positive. -/
theorem advance_noop_time (p : Projectile) (t : ℝ)
    (ht : t - (p.flightPath.getLastD default).t ≤ 0) : p.advance t = p := by
  unfold Projectile.advance
  by_cases h : ¬p.isActive ∨ p.flightPath = []
  · rw [if_pos h]
  · rw [if_neg h]
    simp only [if_pos ht]

/-- Cpp `advance` with all guards passed appends exactly the computed sample and
deactivates exactly when that sample is below ground. -/
theorem advance_eq_append (p : Projectile) (t : ℝ)
    (ha : p.isActive = true) (hne : ¬p.flightPath = [])
    (ht : ¬t - (p.flightPath.getLastD default).t ≤ 0) :
    p.advance t =
      { p with
        flightPath := p.flightPath ++ [advanceSample p t]
        isActive := if (advanceSample p t).pos.y < 0 then false else p.isActive } := by
  unfold Projectile.advance
  rw [if_neg (by simp [ha, hne])]
  simp only [if_neg ht]
  rfl

/-- On the zero velocity the speed is exactly zero. -/
theorem getSpeed_zero : Velocity.getSpeed ⟨0, 0⟩ = 0 := by
  simp [Velocity.getSpeed]

/-- The gravity table's domains are strictly increasing. -/
theorem gravityMapping_strict : StrictTable gravityMapping := by
  apply strictTable_of_chain
  norm_num [gravityMapping, List.chain'_cons]

/-- The gravity table interpolated at altitude 200 m gives exactly 9.8064. -/
theorem gravity_at_200 : gravityFromAltitude 200 = 9.8064 := by
  have hb := linearInterpolation_bracket gravityMapping 200 0 gravityMapping_strict
    (by norm_num [gravityMapping])
    (by norm_num [tableDomain, gravityMapping])
    (by norm_num [tableDomain, gravityMapping])
  rw [gravityFromAltitude, hb]
  norm_num [linearInterpolationPts, tableDomain, tableRange, gravityMapping]

/-- The gravity table clamped at sea level gives exactly 9.807. -/
theorem gravity_at_0 : gravityFromAltitude 0 = 9.807 := by
  rw [gravityFromAltitude,
    linearInterpolation_le_first gravityMapping 0 (by norm_num [tableDomain, gravityMapping])]
  norm_num [tableRange, gravityMapping]

/-- Claim C1: with the default M795 mass and radius, from the sample
pos=(100,200), v=(0,0), t=100, `advance(101)` appends exactly one sample with
pos=(100, 195.0968), v=(0, −9.8064), t=101, the acceleration being the single
gravity value 9.8064 interpolated at altitude 200 m, evaluated once at the
start of the step and held constant over Δt = 1. -/
theorem claim_C1_stationary_fall :
    Projectile.advance ⟨46.7, 0.077545, true, [⟨⟨100, 200⟩, ⟨0, 0⟩, 100⟩]⟩ 101 =
      ⟨46.7, 0.077545, true,
        [⟨⟨100, 200⟩, ⟨0, 0⟩, 100⟩, ⟨⟨100, 195.0968⟩, ⟨0, -9.8064⟩, 101⟩]⟩
    ∧ gravityFromAltitude 200 = 9.8064 := by
  have hg : gravityFromAltitude (max 0 (200 : ℝ)) = 9.8064 := by
    rw [max_eq_right (by norm_num : (0 : ℝ) ≤ 200)]
    exact gravity_at_200
  have hdrag : Projectile.calculateDragAcceleration
      ⟨46.7, 0.077545, true, [⟨⟨100, 200⟩, ⟨0, 0⟩, 100⟩]⟩
      ⟨⟨100, 200⟩, ⟨0, 0⟩, 100⟩ = ⟨0, 0⟩ := by
    simp only [Projectile.calculateDragAcceleration]
    rw [if_pos getSpeed_zero]
  have htot : Projectile.calculateTotalAcceleration
      ⟨46.7, 0.077545, true, [⟨⟨100, 200⟩, ⟨0, 0⟩, 100⟩]⟩
      ⟨⟨100, 200⟩, ⟨0, 0⟩, 100⟩ = ⟨0, -9.8064⟩ := by
    simp only [Projectile.calculateTotalAcceleration, hdrag, Acceleration.plus]
    rw [hg]
    norm_num
  have hsample : advanceSample
      ⟨46.7, 0.077545, true, [⟨⟨100, 200⟩, ⟨0, 0⟩, 100⟩]⟩ 101 =
      ⟨⟨100, 195.0968⟩, ⟨0, -9.8064⟩, 101⟩ := by
    simp only [advanceSample]
    rw [show (⟨46.7, 0.077545, true, [⟨⟨100, 200⟩, ⟨0, 0⟩, 100⟩]⟩ :
      Projectile).flightPath.getLastD default = ⟨⟨100, 200⟩, ⟨0, 0⟩, 100⟩ from rfl]
    rw [htot]
    simp only [Position.add, Velocity.add]
    norm_num
  refine ⟨?_, gravity_at_200⟩
  rw [advance_eq_append _ _ rfl (by simp)
    (by rw [show ((⟨46.7, 0.077545, true, [⟨⟨100, 200⟩, ⟨0, 0⟩, 100⟩]⟩ :
      Projectile).flightPath.getLastD default).t = (100 : ℝ) from rfl]; norm_num)]
  rw [hsample]
  norm_num

/-- Claim C2: for every non-empty lookup table with strictly increasing
domains and every query d, the interpolation is exact at knots, clamps to the
first/last range outside the table, and otherwise linearly interpolates the
unique adjacent bracketing pair. -/
theorem claim_C2_interpolation_contract (mapping : List Mapping) (d : ℝ)
    (hne : mapping ≠ []) (hs : StrictTable mapping) :
    (∀ i, i < mapping.length →
      linearInterpolation mapping (tableDomain mapping i) = tableRange mapping i)
    ∧ (d ≤ tableDomain mapping 0 →
        linearInterpolation mapping d = tableRange mapping 0)
    ∧ (tableDomain mapping (mapping.length - 1) ≤ d →
        linearInterpolation mapping d = tableRange mapping (mapping.length - 1))
    ∧ (∀ i, i + 1 < mapping.length → tableDomain mapping i ≤ d →
        d < tableDomain mapping (i + 1) →
        linearInterpolation mapping d =
          tableRange mapping i +
            (tableRange mapping (i + 1) - tableRange mapping i) *
              (d - tableDomain mapping i) /
              (tableDomain mapping (i + 1) - tableDomain mapping i)) := by
  have hlen : 0 < mapping.length := List.length_pos.mpr hne
  refine ⟨?_, ?_, ?_, ?_⟩
  · intro i hi
    rcases Nat.eq_zero_or_pos i with h0 | hpos
    · subst h0
      exact linearInterpolation_le_first mapping _ (le_refl _)
    · rcases Nat.lt_or_ge i (mapping.length - 1) with hlt | hge
      · have hb := linearInterpolation_bracket mapping (tableDomain mapping i) i
          hs (by omega) (le_refl _) (hs i (i + 1) (by omega) (by omega))
        rw [hb, linearInterpolationPts, sub_self, mul_zero, zero_div, add_zero]
      · have : i = mapping.length - 1 := by omega
        subst this
        exact linearInterpolation_ge_last mapping _ hs (le_refl _)
  · exact linearInterpolation_le_first mapping d
  · exact linearInterpolation_ge_last mapping d hs
  · intro i hi h0 h1
    rw [linearInterpolation_bracket mapping d i hs hi h0 h1, linearInterpolationPts]

/-- Witness for C2 at the concrete table [(0,1),(2,3)] and query 1. -/
theorem claim_C2_witness : linearInterpolation [⟨0, 1⟩, ⟨2, 3⟩] 1 = 2 := by
  have hs : StrictTable [⟨0, 1⟩, ⟨2, 3⟩] :=
    strictTable_of_chain _ (by norm_num [List.chain'_cons])
  have h := (claim_C2_interpolation_contract [⟨0, 1⟩, ⟨2, 3⟩] 1 (by simp) hs).2.2.2
    0 (by simp) (by norm_num [tableDomain]) (by norm_num [tableDomain])
  rw [h]
  norm_num [tableDomain, tableRange]

/-- For a non-empty list the optional last element is the defaulted one. -/
theorem getLast?_eq_getLastD {α : Type} [Inhabited α] (l : List α) (h : l ≠ []) :
    l.getLast? = some (l.getLastD default) := by
  rw [List.getLastD_eq_getLast?]
  cases hl : l.getLast? with
  | none => exact absurd (List.getLast?_eq_none_iff.mp hl) h
  | some b => rfl

/-- Claim C3: `advance(t)` leaves the whole projectile unchanged iff the
projectile is inactive, its trajectory is empty, or t is not strictly past
the last timestamp; `advance` only ever appends, preserves strictly
increasing timestamps, and `fire` starts a strictly increasing trajectory. -/
theorem claim_C3_advance_noop_iff (p : Projectile) (t : ℝ) :
    (p.advance t = p ↔
      ¬p.isActive ∨ p.flightPath = [] ∨ t ≤ (p.flightPath.getLastD default).t)
    ∧ (∃ rest, (p.advance t).flightPath = p.flightPath ++ rest)
    ∧ (List.Chain' (· < ·) (p.flightPath.map PositionVelocityTime.t) →
        List.Chain' (· < ·) ((p.advance t).flightPath.map PositionVelocityTime.t))
    ∧ ∀ (pos : Position) (angle : Angle) (m t0 : ℝ),
        List.Chain' (· < ·)
          ((p.fire pos angle m t0).flightPath.map PositionVelocityTime.t) := by
  have hfire : ∀ (pos : Position) (angle : Angle) (m t0 : ℝ),
      List.Chain' (· < ·)
        ((p.fire pos angle m t0).flightPath.map PositionVelocityTime.t) := by
    intro pos angle m t0
    simp [Projectile.fire]
  by_cases hguard : ¬p.isActive ∨ p.flightPath = []
  · have hnoop := advance_noop_idle p t hguard
    refine ⟨⟨fun _ => ?_, fun _ => hnoop⟩, ⟨[], by rw [hnoop, List.append_nil]⟩,
      fun h => by rwa [hnoop], hfire⟩
    rcases hguard with h | h
    · exact Or.inl h
    · exact Or.inr (Or.inl h)
  · push_neg at hguard
    obtain ⟨hact, hne⟩ := hguard
    by_cases htime : t - (p.flightPath.getLastD default).t ≤ 0
    · have hnoop := advance_noop_time p t htime
      refine ⟨⟨fun _ => ?_, fun _ => hnoop⟩, ⟨[], by rw [hnoop, List.append_nil]⟩,
        fun h => by rwa [hnoop], hfire⟩
      exact Or.inr (Or.inr (by linarith))
    · have happ := advance_eq_append p t (by simpa using hact) hne htime
      constructor
      · apply iff_of_false
        · intro heq
          have hfp := congrArg Projectile.flightPath heq
          rw [happ] at hfp
          simp only at hfp
          have hl := congrArg List.length hfp
          simp at hl
        · push_neg
          refine ⟨by simpa using hact, hne, by linarith [not_le.mp htime]⟩
      refine ⟨⟨[advanceSample p t], by rw [happ]⟩, ?_, hfire⟩
      intro hchain
      rw [happ]
      simp only [List.map_append]
      apply List.Chain'.append hchain (List.chain'_singleton _)
      intro a ha y hy
      simp only [List.map_cons, List.map_nil, List.head?_cons, Option.mem_def,
        Option.some.injEq] at hy
      subst hy
      rw [List.getLast?_map, getLast?_eq_getLastD p.flightPath hne] at ha
      simp at ha
      subst ha
      rw [← List.getLastD_eq_getLast?]
      have hts : (advanceSample p t).t = t := rfl
      rw [hts]
      linarith [not_le.mp htime]

/-- Witness for C3: an inactive projectile is left unchanged by advance. -/
theorem claim_C3_witness :
    Projectile.advance ⟨46.7, 0.077545, false, []⟩ 5 = ⟨46.7, 0.077545, false, []⟩ := by
  exact (claim_C3_advance_noop_iff ⟨46.7, 0.077545, false, []⟩ 5).1.mpr
    (Or.inr (Or.inl rfl))

/-- Claim C6: whenever `advance` appends a sample, the projectile goes
inactive in the same call exactly when the new sample's altitude is strictly
below zero, and the below-ground sample itself is appended and retained. -/
theorem claim_C6_ground_impact (p : Projectile) (t : ℝ)
    (ha : p.isActive = true) (hne : p.flightPath ≠ [])
    (ht : (p.flightPath.getLastD default).t < t) :
    (p.advance t).flightPath = p.flightPath ++ [advanceSample p t]
    ∧ ((advanceSample p t).pos.y < 0 → (p.advance t).isActive = false)
    ∧ (0 ≤ (advanceSample p t).pos.y → (p.advance t).isActive = true) := by
  have happ := advance_eq_append p t ha hne (by linarith)
  refine ⟨by rw [happ], ?_, ?_⟩
  · intro hy
    rw [happ]
    simp only [if_pos hy]
  · intro hy
    rw [happ]
    simp only [if_neg (not_lt.mpr hy)]
    exact ha

/-- Witness for C6: advancing from pos=(0,0), v=(0,0), t=0 to t=1 buries the
new sample below ground and deactivates the projectile. -/
theorem claim_C6_witness :
    (Projectile.advance ⟨46.7, 0.077545, true, [⟨⟨0, 0⟩, ⟨0, 0⟩, 0⟩]⟩ 1).isActive = false := by
  have hdrag : Projectile.calculateDragAcceleration
      ⟨46.7, 0.077545, true, [⟨⟨0, 0⟩, ⟨0, 0⟩, 0⟩]⟩ ⟨⟨0, 0⟩, ⟨0, 0⟩, 0⟩ = ⟨0, 0⟩ := by
    simp only [Projectile.calculateDragAcceleration]
    rw [if_pos getSpeed_zero]
  have hg : gravityFromAltitude (max 0 (0 : ℝ)) = 9.807 := by
    rw [max_self]
    exact gravity_at_0
  have htot : Projectile.calculateTotalAcceleration
      ⟨46.7, 0.077545, true, [⟨⟨0, 0⟩, ⟨0, 0⟩, 0⟩]⟩ ⟨⟨0, 0⟩, ⟨0, 0⟩, 0⟩ = ⟨0, -9.807⟩ := by
    simp only [Projectile.calculateTotalAcceleration, hdrag, Acceleration.plus]
    rw [hg]
    norm_num
  have hy : (advanceSample ⟨46.7, 0.077545, true, [⟨⟨0, 0⟩, ⟨0, 0⟩, 0⟩]⟩ 1).pos.y < 0 := by
    simp only [advanceSample]
    rw [show (⟨46.7, 0.077545, true, [⟨⟨0, 0⟩, ⟨0, 0⟩, 0⟩]⟩ :
      Projectile).flightPath.getLastD default = ⟨⟨0, 0⟩, ⟨0, 0⟩, 0⟩ from rfl]
    rw [htot]
    simp only [Position.add]
    norm_num
  exact (claim_C6_ground_impact ⟨46.7, 0.077545, true, [⟨⟨0, 0⟩, ⟨0, 0⟩, 0⟩]⟩ 1 rfl
    (by simp)
    (by rw [show ((⟨46.7, 0.077545, true, [⟨⟨0, 0⟩, ⟨0, 0⟩, 0⟩]⟩ :
      Projectile).flightPath.getLastD default).t = (0 : ℝ) from rfl]; norm_num)).2.1 hy

/-- Claim C4: drag acceleration is the zero vector exactly at zero speed, and
otherwise equals −(a/|v|)·v with a the drag acceleration magnitude computed
from the atmospheric tables at altitude max(0, y). -/
theorem claim_C4_drag_direction (p : Projectile) (pvt : PositionVelocityTime) :
    (pvt.v.getSpeed = 0 → p.calculateDragAcceleration pvt = ⟨0, 0⟩)
    ∧ (pvt.v.getSpeed ≠ 0 →
        p.calculateDragAcceleration pvt =
          ⟨-(accelerationFromForce
                (forceFromDrag (densityFromAltitude (max 0 pvt.pos.y))
                  (dragFromMach
                    (pvt.v.getSpeed / speedSoundFromAltitude (max 0 pvt.pos.y)))
                  p.radius pvt.v.getSpeed) p.mass / pvt.v.getSpeed) * pvt.v.dx,
           -(accelerationFromForce
                (forceFromDrag (densityFromAltitude (max 0 pvt.pos.y))
                  (dragFromMach
                    (pvt.v.getSpeed / speedSoundFromAltitude (max 0 pvt.pos.y)))
                  p.radius pvt.v.getSpeed) p.mass / pvt.v.getSpeed) * pvt.v.dy⟩) := by
  constructor
  · intro h
    simp only [Projectile.calculateDragAcceleration]
    rw [if_pos h]
  · intro h
    simp only [Projectile.calculateDragAcceleration]
    rw [if_neg h]
    have h1 : ∀ z : ℝ,
        -accelerationFromForce
            (forceFromDrag (densityFromAltitude (max 0 pvt.pos.y))
              (dragFromMach (pvt.v.getSpeed / speedSoundFromAltitude (max 0 pvt.pos.y)))
              p.radius pvt.v.getSpeed) p.mass * (z / pvt.v.getSpeed) =
          -(accelerationFromForce
              (forceFromDrag (densityFromAltitude (max 0 pvt.pos.y))
                (dragFromMach (pvt.v.getSpeed / speedSoundFromAltitude (max 0 pvt.pos.y)))
                p.radius pvt.v.getSpeed) p.mass / pvt.v.getSpeed) * z := by
      intro z
      ring
    rw [h1 pvt.v.dx, h1 pvt.v.dy]

/-- Witness for C4: the drag acceleration of a resting sample is zero. -/
theorem claim_C4_witness :
    Projectile.calculateDragAcceleration ⟨46.7, 0.077545, false, []⟩
      ⟨⟨0, 0⟩, ⟨0, 0⟩, 0⟩ = ⟨0, 0⟩ :=
  (claim_C4_drag_direction ⟨46.7, 0.077545, false, []⟩ ⟨⟨0, 0⟩, ⟨0, 0⟩, 0⟩).1
    getSpeed_zero

/-- Claim C5: `fire` unconditionally replaces the trajectory with the single
sample {pos, (m·sin θ, m·cos θ), t} and activates the projectile. -/
theorem claim_C5_fire (p : Projectile) (pos : Position) (angle : Angle)
    (m t : ℝ) (hm : 0 ≤ m) (ht : 0 ≤ t) :
    p.fire pos angle m t =
      ⟨p.mass, p.radius, true,
        [⟨pos, ⟨m * Real.sin angle.radians, m * Real.cos angle.radians⟩, t⟩]⟩ := by
  rfl

/-- Witness for C5: firing straight up (angle 0) with muzzle velocity 100
from (111,222) at t=1 yields the single sample pos=(111,222), v=(0,100), t=1. -/
theorem claim_C5_witness :
    Projectile.fire ⟨46.7, 0.077545, false, []⟩ ⟨111, 222⟩ ⟨0⟩ 100 1 =
      ⟨46.7, 0.077545, true, [⟨⟨111, 222⟩, ⟨0, 100⟩, 1⟩]⟩ := by
  rw [claim_C5_fire ⟨46.7, 0.077545, false, []⟩ ⟨111, 222⟩ ⟨0⟩ 100 1
    (by norm_num) (by norm_num)]
  norm_num [Real.sin_zero, Real.cos_zero]

/-- Claim C7: `normalize` maps every real input into [0, 2π) and is
idempotent, and every public Angle mutator stores a value in [0, 2π). -/
theorem claim_C7_angle_normalization (θ degrees dx dy delta : ℝ) (a b : Angle) :
    (0 ≤ Angle.normalize θ ∧ Angle.normalize θ < 2.0 * Real.pi)
    ∧ Angle.normalize (Angle.normalize θ) = Angle.normalize θ
    ∧ angleInRange (Angle.setDegrees degrees)
    ∧ angleInRange (Angle.setRadians θ)
    ∧ angleInRange (Angle.setDxDy dx dy)
    ∧ angleInRange (a.add delta)
    ∧ angleInRange a.reverse
    ∧ angleInRange (a.addDegrees degrees)
    ∧ angleInRange (a.subDegrees degrees)
    ∧ angleInRange (a.addAngle b)
    ∧ angleInRange (a.subAngle b)
    ∧ angleInRange (Angle.ofDegrees degrees) := by
  have hid : Angle.normalize (Angle.normalize θ) = Angle.normalize θ :=
    normalize_eq_self _ (normalize_mem θ).1 (normalize_mem θ).2
  exact ⟨normalize_mem θ, hid, normalize_mem _, normalize_mem _, normalize_mem _,
    normalize_mem _, normalize_mem _, normalize_mem _, normalize_mem _,
    normalize_mem _, normalize_mem _, normalize_mem _⟩

/-- Cpp `Angle::getDegrees` on an already-normalized angle multiplies by 180/π. -/
theorem getDegrees_eq (a : Angle) (h0 : 0 ≤ a.radians)
    (hlt : a.radians < 2.0 * Real.pi) :
    a.getDegrees = a.radians * (180.0 / Real.pi) := by
  unfold Angle.getDegrees Angle.convertToDegrees
  rw [normalize_eq_self _ h0 hlt]

/-- The common clamped-elevation-update body shared by `Howitzer::rotate` and
`Howitzer::raise` (howitzer.h lines 100-113 and 132-148), as a function of
the elevation and the signed degree-space delta's radian argument. -/
noncomputable def clampStep (e : Angle) (delta : ℝ) : Angle :=
  let newDegrees := e.getDegrees + delta * (180.0 / Real.pi)
  if MIN_ELEVATION_ANGLE ≤ newDegrees ∧ newDegrees ≤ MAX_ELEVATION_ANGLE then
    e.add delta
  else if newDegrees < MIN_ELEVATION_ANGLE then
    Angle.setDegrees MIN_ELEVATION_ANGLE
  else if MAX_ELEVATION_ANGLE < newDegrees then
    Angle.setDegrees MAX_ELEVATION_ANGLE
  else e

/-- Cpp `Howitzer::rotate` updates the elevation exactly like `clampStep`. -/
theorem rotate_eq_clampStep (h : Howitzer) (delta : ℝ) :
    (h.rotate delta).elevation = clampStep h.elevation delta := by
  unfold Howitzer.rotate clampStep
  dsimp only
  split_ifs <;> rfl

/-- Cpp `Howitzer::raise` updates the elevation exactly like `clampStep` with the
delta's sign flipped when the elevation points right. -/
theorem raise_eq_clampStep (h : Howitzer) (delta : ℝ) :
    (h.raise delta).elevation =
      clampStep h.elevation (if h.elevation.isRight then -delta else delta) := by
  unfold Howitzer.raise clampStep
  by_cases hir : h.elevation.isRight
  · simp only [if_pos hir]
    rw [show -(delta * (180.0 / Real.pi)) = -delta * (180.0 / Real.pi) from
      (neg_mul delta _).symm]
    split_ifs <;> rfl
  · simp only [if_neg hir]
    split_ifs <;> rfl

/-- The clamped elevation update stays in [0°, 85°] (in radians) and clamps
exactly to the violated bound. -/
theorem clampStep_spec (e : Angle) (delta : ℝ)
    (hlo : 0 ≤ e.radians) (hhi : e.radians ≤ 85 * (Real.pi / 180)) :
    (0 ≤ (clampStep e delta).radians ∧
      (clampStep e delta).radians ≤ 85 * (Real.pi / 180))
    ∧ (85 < e.getDegrees + delta * (180.0 / Real.pi) →
        (clampStep e delta).radians = 85 * (Real.pi / 180))
    ∧ (e.getDegrees + delta * (180.0 / Real.pi) < 0 →
        (clampStep e delta).radians = 0) := by
  have hπ : (0 : ℝ) < Real.pi := Real.pi_pos
  have h2π : (85 : ℝ) * (Real.pi / 180) < 2.0 * Real.pi := by linarith
  have hlt2π : e.radians < 2.0 * Real.pi := lt_of_le_of_lt hhi h2π
  have hdeg : e.getDegrees = e.radians * (180.0 / Real.pi) :=
    getDegrees_eq e hlo hlt2π
  have hk : (0 : ℝ) < 180.0 / Real.pi := by positivity
  have hrw : e.getDegrees + delta * (180.0 / Real.pi) =
      (e.radians + delta) * (180.0 / Real.pi) := by
    rw [hdeg]; ring
  have h1800 : (180.0 : ℝ) = 180 := by norm_num
  have h85k : (85 : ℝ) * (Real.pi / 180) * (180.0 / Real.pi) = 85 := by
    rw [h1800]
    field_simp
  have hzero : (Angle.setDegrees 0.0).radians = 0 := by
    unfold Angle.setDegrees Angle.convertToRadians
    rw [show (0.0 : ℝ) * (Real.pi / 180.0) = 0 by norm_num]
    exact normalize_eq_self 0 le_rfl (by positivity)
  have h85r : (Angle.setDegrees 85.0).radians = 85 * (Real.pi / 180) := by
    unfold Angle.setDegrees Angle.convertToRadians
    rw [show (85.0 : ℝ) * (Real.pi / 180.0) = 85 * (Real.pi / 180) by norm_num]
    exact normalize_eq_self _ (by positivity) h2π
  unfold clampStep
  simp only [MIN_ELEVATION_ANGLE, MAX_ELEVATION_ANGLE]
  split_ifs with hc1 hc2 hc3
  · obtain ⟨hc1a, hc1b⟩ := hc1
    rw [hrw] at hc1a hc1b
    rw [show (0.0 : ℝ) = 0 by norm_num] at hc1a
    rw [show (85.0 : ℝ) = 85 by norm_num] at hc1b
    have hsum0 : 0 ≤ e.radians + delta := by
      by_contra hneg
      push_neg at hneg
      have hmn : (e.radians + delta) * (180.0 / Real.pi) < 0 :=
        mul_neg_of_neg_of_pos hneg hk
      linarith
    have hsum85 : e.radians + delta ≤ 85 * (Real.pi / 180) := by
      by_contra hgt
      push_neg at hgt
      have hmm := mul_lt_mul_of_pos_right hgt hk
      rw [h85k] at hmm
      linarith
    have hval : (e.add delta).radians = e.radians + delta :=
      normalize_eq_self _ hsum0 (lt_of_le_of_lt hsum85 h2π)
    refine ⟨⟨by rw [hval]; exact hsum0, by rw [hval]; exact hsum85⟩, ?_, ?_⟩
    · intro hgt
      exfalso
      rw [hrw] at hgt
      linarith
    · intro hlt
      exfalso
      rw [hrw] at hlt
      have hmn := mul_nonneg (by linarith : (0 : ℝ) ≤ e.radians + delta)
        (le_of_lt hk)
      linarith
  · refine ⟨⟨by rw [hzero], by rw [hzero]; positivity⟩, ?_, fun _ => hzero⟩
    intro hgt
    exfalso
    linarith
  · refine ⟨⟨by rw [h85r]; positivity, by rw [h85r]⟩, fun _ => h85r, ?_⟩
    intro hlt
    exfalso
    linarith
  · exfalso
    push_neg at hc1 hc2 hc3
    have := hc1 (by linarith)
    linarith

/-- Claim C8: starting from any elevation inside [0°, 85°], both `rotate` and
`raise` keep the elevation inside [0°, 85°]; an attempted change landing
strictly above 85° clamps exactly to 85° and one landing strictly below 0°
clamps exactly to 0° (for `raise` the attempted change is its sign-adjusted
delta); the elevation never wraps past either bound. -/
theorem claim_C8_elevation_clamp (h : Howitzer) (delta : ℝ)
    (hlo : 0 ≤ h.elevation.radians)
    (hhi : h.elevation.radians ≤ 85 * (Real.pi / 180)) :
    ((0 ≤ (h.rotate delta).elevation.radians ∧
        (h.rotate delta).elevation.radians ≤ 85 * (Real.pi / 180))
      ∧ (85 < h.elevation.getDegrees + delta * (180.0 / Real.pi) →
          (h.rotate delta).elevation.radians = 85 * (Real.pi / 180))
      ∧ (h.elevation.getDegrees + delta * (180.0 / Real.pi) < 0 →
          (h.rotate delta).elevation.radians = 0))
    ∧ ((0 ≤ (h.raise delta).elevation.radians ∧
        (h.raise delta).elevation.radians ≤ 85 * (Real.pi / 180))
      ∧ (85 < h.elevation.getDegrees +
            (if h.elevation.isRight then -delta else delta) * (180.0 / Real.pi) →
          (h.raise delta).elevation.radians = 85 * (Real.pi / 180))
      ∧ (h.elevation.getDegrees +
            (if h.elevation.isRight then -delta else delta) * (180.0 / Real.pi) < 0 →
          (h.raise delta).elevation.radians = 0)) := by
  rw [rotate_eq_clampStep, raise_eq_clampStep]
  exact ⟨clampStep_spec h.elevation delta hlo hhi,
    clampStep_spec h.elevation _ hlo hhi⟩

/-- Witness for C8 at a concrete upright howitzer and a one-radian delta. -/
theorem claim_C8_witness :
    0 ≤ ((⟨⟨0, 0⟩, 827, ⟨0⟩, -1, 0⟩ : Howitzer).rotate 1).elevation.radians ∧
      ((⟨⟨0, 0⟩, 827, ⟨0⟩, -1, 0⟩ : Howitzer).rotate 1).elevation.radians ≤
        85 * (Real.pi / 180) :=
  (claim_C8_elevation_clamp ⟨⟨0, 0⟩, 827, ⟨0⟩, -1, 0⟩ 1 le_rfl (by positivity)).1.1

/-- Claim C9: `getCurrentAltitude` returns max(0, last sample's y), 0 when the
trajectory is empty, is never negative, and can disagree with
`getPosition().getMetersY()` on the same state. -/
theorem claim_C9_current_altitude (p : Projectile) :
    0 ≤ p.getCurrentAltitude
    ∧ (p.flightPath = [] → p.getCurrentAltitude = 0)
    ∧ (p.flightPath ≠ [] →
        p.getCurrentAltitude = max 0 (p.flightPath.getLastD default).pos.y)
    ∧ ∃ q : Projectile, q.getCurrentAltitude ≠ q.getPosition.y := by
  refine ⟨?_, ?_, ?_,
    ⟨⟨46.7, 0.077545, false, [⟨⟨0, -1⟩, ⟨0, 0⟩, 1⟩]⟩, ?_⟩⟩
  · unfold Projectile.getCurrentAltitude
    split_ifs
    · exact le_rfl
    · exact le_max_left 0 _
  · intro h
    unfold Projectile.getCurrentAltitude
    rw [if_pos h]
  · intro h
    unfold Projectile.getCurrentAltitude
    rw [if_neg h]
  · unfold Projectile.getCurrentAltitude Projectile.getPosition
    rw [if_neg (by simp), if_neg (by simp)]
    rw [show ([⟨⟨0, -1⟩, ⟨0, 0⟩, 1⟩] :
      List PositionVelocityTime).getLastD default = ⟨⟨0, -1⟩, ⟨0, 0⟩, 1⟩ from rfl]
    rw [show ((⟨⟨0, -1⟩, ⟨0, 0⟩, 1⟩ : PositionVelocityTime)).pos.y = (-1 : ℝ) from rfl]
    rw [max_eq_left (by norm_num : (-1 : ℝ) ≤ 0)]
    norm_num

/-- Witness for C9: an empty trajectory reports altitude 0. -/
theorem claim_C9_witness :
    (⟨46.7, 0.077545, false, []⟩ : Projectile).getCurrentAltitude = 0 :=
  (claim_C9_current_altitude ⟨46.7, 0.077545, false, []⟩).2.1 rfl

/-- Claim C10: with positive mass and radius, every public operation keeps
them positive: setMass/setRadius ignore non-positive arguments, reset
restores the positive M795 defaults, and fire/advance never touch mass or
radius. -/
theorem claim_C10_mass_radius_invariant (p : Projectile)
    (hm : 0 < p.mass) (hr : 0 < p.radius) :
    (∀ m, 0 < (p.setMass m).mass ∧ 0 < (p.setMass m).radius)
    ∧ (∀ m, m ≤ 0 → p.setMass m = p)
    ∧ (∀ r, 0 < (p.setRadius r).mass ∧ 0 < (p.setRadius r).radius)
    ∧ (∀ r, r ≤ 0 → p.setRadius r = p)
    ∧ (0 < p.reset.mass ∧ 0 < p.reset.radius)
    ∧ (∀ (pos : Position) (angle : Angle) (m t : ℝ),
        (p.fire pos angle m t).mass = p.mass ∧
          (p.fire pos angle m t).radius = p.radius)
    ∧ (∀ t, (p.advance t).mass = p.mass ∧ (p.advance t).radius = p.radius) := by
  refine ⟨?_, ?_, ?_, ?_, ?_, ?_, ?_⟩
  · intro m
    refine ⟨?_, hr⟩
    unfold Projectile.setMass
    dsimp only
    split_ifs with h
    · exact h
    · exact hm
  · intro m hm0
    unfold Projectile.setMass
    rw [if_neg (by linarith : ¬(0 : ℝ) < m)]
  · intro r
    refine ⟨hm, ?_⟩
    unfold Projectile.setRadius
    dsimp only
    split_ifs with h
    · exact h
    · exact hr
  · intro r hr0
    unfold Projectile.setRadius
    rw [if_neg (by linarith : ¬(0 : ℝ) < r)]
  · constructor <;>
      norm_num [Projectile.reset, DEFAULT_PROJECTILE_WEIGHT,
        DEFAULT_PROJECTILE_RADIUS]
  · intro pos angle m t
    exact ⟨rfl, rfl⟩
  · intro t
    by_cases h1 : ¬p.isActive ∨ p.flightPath = []
    · rw [advance_noop_idle p t h1]
      exact ⟨rfl, rfl⟩
    · push_neg at h1
      by_cases h2 : t - (p.flightPath.getLastD default).t ≤ 0
      · rw [advance_noop_time p t h2]
        exact ⟨rfl, rfl⟩
      · rw [advance_eq_append p t (by simpa using h1.1) h1.2 h2]
        exact ⟨rfl, rfl⟩

/-- Witness for C10: a non-positive setMass argument is ignored. -/
theorem claim_C10_witness :
    Projectile.setMass ⟨46.7, 0.077545, false, []⟩ (-1) =
      ⟨46.7, 0.077545, false, []⟩ :=
  (claim_C10_mass_radius_invariant ⟨46.7, 0.077545, false, []⟩
    (by norm_num) (by norm_num)).2.1 (-1) (by norm_num)
